import Mathlib

/-!
Shallow embedding of the discord-cdn redirector (`main.go`).

Go strings are modelled as `List Char`.  The Link Parser (`parseLink`,
`cleanURL`), the Refresh Client response handling (`RefreshAttachmentURL`)
and the request handler (`handleURL`) are translated function by function.
`strconv.ParseInt(s, 10, 64)` from the Go standard library is modelled by
`goParseInt64`.
-/

namespace DiscordCDN

/-- Model of a Go character test `'0' <= c && c <= '9'`. -/
def isDigitChar (c : Char) : Bool := '0' ≤ c && c ≤ '9'

/-- Numeric value of a decimal digit string, most significant digit first
(the accumulator loop used by `strconv.ParseUint`). -/
def digitsVal (cs : List Char) : Nat :=
  cs.foldl (fun a c => 10 * a + (c.toNat - 48)) 0

/-- A non-empty string consisting solely of decimal digits. -/
def allDigits (cs : List Char) : Bool := !cs.isEmpty && cs.all isDigitChar

/-- Model of Go `strconv.ParseInt(s, 10, 64)`: an optional single sign
followed by decimal digits, with the value required to fit in a signed
64-bit integer.  `none` models a non-nil error (syntax or range). -/
def goParseInt64 (s : List Char) : Option Int :=
  match s with
  | [] => none
  | c :: rest =>
    if c = '-' then
      if allDigits rest ∧ digitsVal rest ≤ 2 ^ 63 then
        some (-(digitsVal rest : Int))
      else none
    else if c = '+' then
      if allDigits rest ∧ digitsVal rest ≤ 2 ^ 63 - 1 then
        some ((digitsVal rest : Int))
      else none
    else
      if allDigits (c :: rest) ∧ digitsVal (c :: rest) ≤ 2 ^ 63 - 1 then
        some ((digitsVal (c :: rest) : Int))
      else none

/-- Model of Go `strings.Split(s, "/")` (the separator is a single slash). -/
def splitOnSlash : List Char → List (List Char)
  | [] => [[]]
  | c :: t =>
    if c = '/' then [] :: splitOnSlash t
    else
      match splitOnSlash t with
      | [] => [[c]]
      | h :: r => (c :: h) :: r

/-- Model of `url = url[:strings.Index(url, "?")]` (no-op when there is
no `'?'`): everything from the first `'?'` onward is removed. -/
def stripQuery (l : List Char) : List Char := l.takeWhile (fun c => c ≠ '?')

/-- Check whether `pat` is an initial segment of `s`
(Go `strings.HasPrefix`). -/
def startsWith : List Char → List Char → Bool
  | [], _ => true
  | _ :: _, [] => false
  | p :: ps, c :: cs => p == c && startsWith ps cs

/-- Model of `strings.Index(s, pat)` followed by `s[idx+len(pat):]`:
`some r` when `pat` occurs in `s` and `r` is the part after the first
occurrence, `none` when `pat` does not occur. -/
def findDrop (pat : List Char) : List Char → Option (List Char)
  | [] => if startsWith pat [] then some [] else none
  | c :: t =>
    if startsWith pat (c :: t) then some ((c :: t).drop pat.length)
    else findDrop pat t

/-- The literal substring `"attachments/"` searched for by `cleanURL`. -/
def attachmentsPat : List Char := "attachments/".toList

/-- Model of Go `cleanURL`: strip the query string, then drop everything
up to and including the first occurrence of `"attachments/"`. -/
def cleanURL (url : List Char) : List Char :=
  let url := stripQuery url
  match findDrop attachmentsPat url with
  | some rest => rest
  | none => url

/-- Error message `"Invalid link format"` from `parseLink`. -/
def invalidFormatMsg : List Char := "Invalid link format".toList

/-- Error message `"Invalid Channel ID"` from `parseLink`. -/
def invalidChannelIDMsg : List Char := "Invalid Channel ID".toList

/-- Error message `"Invalid File ID"` from `parseLink`. -/
def invalidFileIDMsg : List Char := "Invalid File ID".toList

/-- Error message `"File name must include extension"` from `parseLink`. -/
def missingExtensionMsg : List Char := "File name must include extension".toList

/-- Go struct `LinkData` (`ChannelID`, `FileID` are `int64`). -/
structure LinkData where
  ChannelID : Int
  FileID : Int
  FileName : List Char
deriving DecidableEq

/-- Go struct `ParsedLink`: an error message (empty on success) and an
optional data pointer. -/
structure ParsedLink where
  Error : List Char
  Data : Option LinkData
deriving DecidableEq

/-- The segment checks of `parseLink` after splitting on `'/'`:
require exactly three parts, parse the two IDs, require a dot in the
file name. -/
def parseSegments (parts : List (List Char)) : ParsedLink :=
  match parts with
  | [p0, p1, p2] =>
    match goParseInt64 p0 with
    | none => { Error := invalidChannelIDMsg, Data := none }
    | some channelID =>
      match goParseInt64 p1 with
      | none => { Error := invalidFileIDMsg, Data := none }
      | some fileID =>
        if p2.contains '.' then
          { Error := [],
            Data := some { ChannelID := channelID, FileID := fileID, FileName := p2 } }
        else { Error := missingExtensionMsg, Data := none }
  | _ => { Error := invalidFormatMsg, Data := none }

/-- Model of Go `parseLink`. -/
def parseLink (input : List Char) : ParsedLink :=
  parseSegments (splitOnSlash (cleanURL input))

/-- Decimal digits of `n`, most significant first, by repeated division;
`fuel` bounds the recursion and any `fuel ≥ n` is enough. -/
def natDecimalAux : Nat → Nat → List Char
  | 0, _ => []
  | fuel + 1, n =>
    if n = 0 then []
    else natDecimalAux fuel (n / 10) ++ [Nat.digitChar (n % 10)]

/-- Decimal rendering of a natural number (Go `fmt` `%d` for `n ≥ 0`). -/
def natDecimal (n : Nat) : List Char :=
  if n = 0 then ['0'] else natDecimalAux n n

/-- Decimal rendering of an `int64` (Go `fmt` verb `%d`): a leading `'-'`
for negative values. -/
def intDecimal (v : Int) : List Char :=
  if v < 0 then '-' :: natDecimal v.natAbs else natDecimal v.toNat

/-- The literal `"https://cdn.discordapp.com/attachments/"` used when the
handler rebuilds the canonical attachment URL. -/
def cdnAttachmentsBase : List Char := "https://cdn.discordapp.com/attachments/".toList

/-- The canonical URL the handler rebuilds with
`fmt.Sprintf("https://cdn.discordapp.com/attachments/%d/%d/%s", ...)`. -/
def reconstructURL (ld : LinkData) : List Char :=
  cdnAttachmentsBase ++ (intDecimal ld.ChannelID ++ ('/' :: (intDecimal ld.FileID ++ ('/' :: ld.FileName))))

/-- Modelled from the spec, for the amended numeric claim: a string is an
acceptable base-10 signed 64-bit numeral when it is a non-empty digit
string with an optional single leading sign and its value fits in
`int64` (at most `2^63 - 1`, or `2^63` for the magnitude of a negative). -/
def acceptInt64 (s : List Char) : Bool :=
  match s with
  | [] => false
  | c :: rest =>
    if c = '-' then allDigits rest && decide (digitsVal rest ≤ 2 ^ 63)
    else if c = '+' then allDigits rest && decide (digitsVal rest ≤ 2 ^ 63 - 1)
    else allDigits (c :: rest) && decide (digitsVal (c :: rest) ≤ 2 ^ 63 - 1)

/-- One entry of the upstream response list `refreshed_urls`. -/
structure RefreshedEntry where
  Original : List Char
  Refreshed : List Char
deriving DecidableEq

/-- Error message `fmt.Errorf("discord API error: %d", resp.StatusCode)`. -/
def apiErrorMsg (status : Nat) : List Char :=
  "discord API error: ".toList ++ natDecimal status

/-- Error message `"no refreshed URLs returned"`. -/
def noRefreshedMsg : List Char := "no refreshed URLs returned".toList

/-- Error message wrapping a JSON decode failure. -/
def decodeErrorMsg (e : List Char) : List Char :=
  "failed to decode response: ".toList ++ e

/-- Error message wrapping a transport failure of `c.client.Do`. -/
def executeErrorMsg (e : List Char) : List Char :=
  "failed to execute request: ".toList ++ e

/-- Response handling of `RefreshAttachmentURL`: reject a non-200 status,
then decode the body, reject an empty `refreshed_urls` list, and return
the `refreshed` field of entry 0. -/
def refreshHandleResponse (status : Nat)
    (decoded : Except (List Char) (List RefreshedEntry)) :
    Except (List Char) (List Char) :=
  if status ≠ 200 then .error (apiErrorMsg status)
  else
    match decoded with
    | .error e => .error (decodeErrorMsg e)
    | .ok [] => .error noRefreshedMsg
    | .ok (entry :: _) => .ok entry.Refreshed

/-- JSON values, enough to state the shape of the marshalled request body. -/
inductive Json where
  | str : List Char → Json
  | arr : List Json → Json
  | obj : List (List Char × Json) → Json

/-- An outbound HTTP request as `RefreshAttachmentURL` builds it: method,
target URL, the two headers it sets, and the JSON body. -/
structure HTTPRequest where
  method : List Char
  url : List Char
  contentType : List Char
  authorization : List Char
  body : Json

/-- The upstream endpoint `https://discord.com/api/v9/attachments/refresh-urls`. -/
def refreshEndpoint : List Char :=
  "https://discord.com/api/v9/attachments/refresh-urls".toList

/-- Request construction in `RefreshAttachmentURL`: a POST carrying the
marshalled body `map[string]interface{}{"attachment_urls": []string{url}}`
with `Content-Type: application/json` and the token verbatim in the
`Authorization` header. -/
def buildRefreshRequest (token attachmentURL : List Char) : HTTPRequest :=
  { method := "POST".toList
    url := refreshEndpoint
    contentType := "application/json".toList
    authorization := token
    body := Json.obj [("attachment_urls".toList, Json.arr [Json.str attachmentURL])] }

/-- Model of `RefreshAttachmentURL`.  The network is a `transport`
oracle mapping a request to either a transport error or a status code
with the decoded body.  The first component of the result is the list of
requests issued (the code performs exactly one `c.client.Do`). -/
def RefreshAttachmentURL (token attachmentURL : List Char)
    (transport : HTTPRequest → Except (List Char) (Nat × Except (List Char) (List RefreshedEntry))) :
    List HTTPRequest × Except (List Char) (List Char) :=
  let req := buildRefreshRequest token attachmentURL
  match transport req with
  | .error e => ([req], .error (executeErrorMsg e))
  | .ok (status, decoded) => ([req], refreshHandleResponse status decoded)

/-- Responses the handler can produce: 400 with a JSON error body, 502
with a JSON error body, a redirect with a `Location` URL, or the nil
dereference that would occur if `parsedLink.Data` were nil with an empty
error (never reached, by the `ParsedLink` invariant). -/
inductive HandlerResp where
  | badRequest (body : List Char)
  | badGateway (body : List Char)
  | redirect (status : Nat) (location : List Char)
  | nilDeref
deriving DecidableEq

/-- Model of Go `strings.TrimPrefix(s, "/")`: one leading slash removed. -/
def trimPrefixSlash : List Char → List Char
  | '/' :: t => t
  | s => s

/-- The request handler `handleURL`, generic in the parser so that
independence from the parser can be stated on the decode-failure path.
`decode` models `url.PathUnescape` (`.error` is a non-nil error) and
`refresh` models the Refresh Client outcome for a given URL. -/
def handleURLGen (parser : List Char → ParsedLink) (param : List Char)
    (decode : List Char → Except (List Char) (List Char))
    (refresh : List Char → Except (List Char) (List Char)) : HandlerResp :=
  let encodedURL := trimPrefixSlash param
  if encodedURL = [] then .badRequest "URL is required".toList
  else
    match decode encodedURL with
    | .error _ => .badRequest "Invalid URL format".toList
    | .ok decodedURL =>
      let parsedLink := parser decodedURL
      if parsedLink.Error ≠ [] then .badRequest parsedLink.Error
      else
        match parsedLink.Data with
        | none => .nilDeref
        | some ld =>
          match refresh (reconstructURL ld) with
          | .error _ => .badGateway "Failed to refresh URL".toList
          | .ok newURL => .redirect 301 newURL

/-- Substring-freedom used to show `"attachments/"` cannot occur in a
bare `digits/digits/name` path: the two adjacent characters `'s'`, `'/'`
never appear. -/
def noSlashPair (l : List Char) : Prop :=
  ∀ u v : List Char, l ≠ u ++ 's' :: '/' :: v

/-- Model of Go `handleURL` with the real parser plugged in. -/
def handleURL (param : List Char)
    (decode : List Char → Except (List Char) (List Char))
    (refresh : List Char → Except (List Char) (List Char)) : HandlerResp :=
  handleURLGen parseLink param decode refresh

end DiscordCDN


namespace DiscordCDN

theorem splitOnSlash_ne_nil (s : List Char) : splitOnSlash s ≠ [] := by
  induction s with
  | nil => simp [splitOnSlash]
  | cons c t ih =>
    simp only [splitOnSlash]
    split
    · simp
    · rcases h : splitOnSlash t with _ | ⟨x, r⟩
      · exact absurd h ih
      · simp [h]

theorem splitOnSlash_of_no_slash (c : List Char) (h : '/' ∉ c) :
    splitOnSlash c = [c] := by
  induction c with
  | nil => rfl
  | cons x t ih =>
    have hx : x ≠ '/' := fun hx => h (hx ▸ List.mem_cons_self x t)
    have ht : splitOnSlash t = [t] := ih (fun hm => h (List.mem_cons_of_mem x hm))
    simp [splitOnSlash, hx, ht]

theorem splitOnSlash_append_slash (a rest : List Char) (h : '/' ∉ a) :
    splitOnSlash (a ++ '/' :: rest) = a :: splitOnSlash rest := by
  induction a with
  | nil => simp [splitOnSlash]
  | cons x t ih =>
    have hx : x ≠ '/' := fun hx => h (hx ▸ List.mem_cons_self x t)
    have ht := ih (fun hm => h (List.mem_cons_of_mem x hm))
    simp [splitOnSlash, hx, ht]

theorem splitOnSlash_mem {s : List Char} {p : List Char} {x : Char}
    (hp : p ∈ splitOnSlash s) (hx : x ∈ p) : x ∈ s ∧ x ≠ '/' := by
  induction s generalizing p with
  | nil =>
    simp [splitOnSlash] at hp
    subst hp
    simp at hx
  | cons c t ih =>
    simp only [splitOnSlash] at hp
    by_cases hc : c = '/'
    · rw [if_pos hc] at hp
      rcases List.mem_cons.mp hp with h0 | h0
      · subst h0; simp at hx
      · obtain ⟨h1, h2⟩ := ih h0 hx
        exact ⟨List.mem_cons_of_mem c h1, h2⟩
    · rw [if_neg hc] at hp
      rcases hsp : splitOnSlash t with _ | ⟨hd, r⟩
      · exact absurd hsp (splitOnSlash_ne_nil t)
      · rw [hsp] at hp
        rcases List.mem_cons.mp hp with h0 | h0
        · subst h0
          rcases List.mem_cons.mp hx with h1 | h1
          · subst h1; exact ⟨List.mem_cons_self x t, hc⟩
          · obtain ⟨h2, h3⟩ := ih (hsp ▸ List.mem_cons_self hd r) h1
            exact ⟨List.mem_cons_of_mem c h2, h3⟩
        · obtain ⟨h2, h3⟩ := ih (hsp ▸ List.mem_cons_of_mem hd h0) hx
          exact ⟨List.mem_cons_of_mem c h2, h3⟩

end DiscordCDN

namespace DiscordCDN

theorem startsWith_eq_append {p s : List Char} (h : startsWith p s = true) :
    s = p ++ s.drop p.length := by
  induction p generalizing s with
  | nil => simp
  | cons x ps ih =>
    rcases s with _ | ⟨c, cs⟩
    · simp [startsWith] at h
    · simp only [startsWith, Bool.and_eq_true, beq_iff_eq] at h
      obtain ⟨rfl, h2⟩ := h
      simpa using ih h2

theorem findDrop_some {pat s r : List Char} (h : findDrop pat s = some r) :
    ∃ q, s = q ++ pat ++ r := by
  induction s with
  | nil =>
    simp only [findDrop] at h
    split at h
    · rename_i hs
      have hp : pat = [] := by
        cases pat with
        | nil => rfl
        | cons a b => simp [startsWith] at hs
      subst hp
      rw [Option.some_inj] at h
      exact ⟨[], by simp [← h]⟩
    · exact absurd h (by simp)
  | cons c t ih =>
    simp only [findDrop] at h
    split at h
    · rename_i hs
      have hdec := startsWith_eq_append hs
      refine ⟨[], ?_⟩
      simp only [List.nil_append]
      rw [Option.some_inj] at h
      rw [← h]
      exact hdec
    · obtain ⟨q, hq⟩ := ih h
      exact ⟨c :: q, by simp [hq]⟩

theorem mem_of_findDrop {pat s r : List Char} (h : findDrop pat s = some r)
    {x : Char} (hx : x ∈ r) : x ∈ s := by
  obtain ⟨q, rfl⟩ := findDrop_some h
  simp [hx]

theorem stripQuery_no_q (l : List Char) {x : Char} (hx : x ∈ stripQuery l) :
    x ≠ '?' := by
  have := List.mem_takeWhile_imp hx
  simpa using this

theorem stripQuery_eq_self {l : List Char} (h : ∀ x ∈ l, x ≠ '?') :
    stripQuery l = l := by
  induction l with
  | nil => rfl
  | cons c t ih =>
    have hc : c ≠ '?' := h c (List.mem_cons_self c t)
    have ht := ih (fun x hx => h x (List.mem_cons_of_mem c hx))
    simp [stripQuery, hc] at ht ⊢
    exact ht

theorem stripQuery_append_query {l : List Char} (q : List Char)
    (h : ∀ x ∈ l, x ≠ '?') : stripQuery (l ++ '?' :: q) = l := by
  induction l with
  | nil => simp [stripQuery]
  | cons c t ih =>
    have hc : c ≠ '?' := h c (List.mem_cons_self c t)
    have ht := ih (fun x hx => h x (List.mem_cons_of_mem c hx))
    simp only [stripQuery, List.cons_append, List.takeWhile_cons] at ht ⊢
    simp [hc] at ht ⊢
    exact ht

theorem cleanURL_no_q (i : List Char) {x : Char} (hx : x ∈ cleanURL i) :
    x ≠ '?' := by
  have hx' : x ∈ stripQuery i := by
    rcases h : findDrop attachmentsPat (stripQuery i) with _ | r
    · simpa only [cleanURL, h] using hx
    · exact mem_of_findDrop h (by simpa only [cleanURL, h] using hx)
  exact stripQuery_no_q i hx'

end DiscordCDN

namespace DiscordCDN

theorem isDigitChar_ne {x : Char} (h : isDigitChar x = true) :
    x ≠ '?' ∧ x ≠ '/' ∧ x ≠ 's' ∧ x ≠ '-' ∧ x ≠ '+' := by
  refine ⟨?_, ?_, ?_, ?_, ?_⟩ <;> (rintro rfl; exact absurd h (by decide))

theorem noSlashPair_of_no_slash {l : List Char} (h : '/' ∉ l) : noSlashPair l := by
  intro u v he
  exact h (he ▸ List.mem_append.mpr (Or.inr (List.mem_cons_of_mem 's' (List.mem_cons_self '/' v))))

theorem noSlashPair_tail {c : Char} {l : List Char} (h : noSlashPair (c :: l)) :
    noSlashPair l := by
  intro u v he
  exact h (c :: u) v (by simp [he])

theorem noSlashPair_cons {c : Char} {l : List Char} (hc : c ≠ 's')
    (h : noSlashPair l) : noSlashPair (c :: l) := by
  rintro (_ | ⟨w, u⟩) v he
  · simp at he
    exact hc he.1
  · simp at he
    exact h u v he.2

theorem noSlashPair_append {p l : List Char} (hp : ∀ x ∈ p, x ≠ 's')
    (h : noSlashPair l) : noSlashPair (p ++ l) := by
  induction p with
  | nil => simpa using h
  | cons c t ih =>
    exact noSlashPair_cons (hp c (List.mem_cons_self c t))
      (ih (fun x hx => hp x (List.mem_cons_of_mem c hx)))

theorem findDrop_attach_none {s : List Char} (h : noSlashPair s) :
    findDrop attachmentsPat s = none := by
  induction s with
  | nil => rfl
  | cons c t ih =>
    simp only [findDrop]
    split
    · rename_i hs
      have hdec := startsWith_eq_append hs
      have hshape : attachmentsPat ++ (c :: t).drop attachmentsPat.length =
          "attachment".toList ++ 's' :: '/' :: (c :: t).drop attachmentsPat.length := rfl
      exact absurd (hdec.trans hshape) (h _ _)
    · exact ih (noSlashPair_tail h)

theorem noSlashPair_path {a b c : List Char}
    (ha : ∀ x ∈ a, isDigitChar x = true) (hb : ∀ x ∈ b, isDigitChar x = true)
    (hc : '/' ∉ c) : noSlashPair (a ++ ('/' :: (b ++ ('/' :: c)))) :=
  noSlashPair_append (fun x hx => (isDigitChar_ne (ha x hx)).2.2.1)
    (noSlashPair_cons (by decide)
      (noSlashPair_append (fun x hx => (isDigitChar_ne (hb x hx)).2.2.1)
        (noSlashPair_cons (by decide) (noSlashPair_of_no_slash hc))))

theorem path_no_q {a b c : List Char}
    (ha : ∀ x ∈ a, isDigitChar x = true) (hb : ∀ x ∈ b, isDigitChar x = true)
    (hcq : '?' ∉ c) : ∀ x ∈ a ++ ('/' :: (b ++ ('/' :: c))), x ≠ '?' := by
  intro x hx
  rcases List.mem_append.mp hx with h | h
  · exact (isDigitChar_ne (ha x h)).1
  · rcases List.mem_cons.mp h with rfl | h
    · decide
    · rcases List.mem_append.mp h with h | h
      · exact (isDigitChar_ne (hb x h)).1
      · rcases List.mem_cons.mp h with rfl | h
        · decide
        · exact fun e => hcq (e ▸ h)

theorem cleanURL_path {a b c : List Char}
    (ha : ∀ x ∈ a, isDigitChar x = true) (hb : ∀ x ∈ b, isDigitChar x = true)
    (hc : '/' ∉ c) (hcq : '?' ∉ c) :
    cleanURL (a ++ ('/' :: (b ++ ('/' :: c)))) = a ++ ('/' :: (b ++ ('/' :: c))) := by
  have h1 := stripQuery_eq_self (path_no_q ha hb hcq)
  have h2 := findDrop_attach_none (noSlashPair_path ha hb hc)
  simp only [cleanURL, h1, h2]

theorem cleanURL_path_query {a b c : List Char} (q : List Char)
    (ha : ∀ x ∈ a, isDigitChar x = true) (hb : ∀ x ∈ b, isDigitChar x = true)
    (hc : '/' ∉ c) (hcq : '?' ∉ c) :
    cleanURL ((a ++ ('/' :: (b ++ ('/' :: c)))) ++ '?' :: q) = a ++ ('/' :: (b ++ ('/' :: c))) := by
  have h1 := stripQuery_append_query q (path_no_q ha hb hcq)
  have h2 := findDrop_attach_none (noSlashPair_path ha hb hc)
  simp only [cleanURL, h1, h2]

theorem cdnBase_no_q : ∀ x ∈ cdnAttachmentsBase, x ≠ '?' := by decide

theorem findDrop_attach_cdnBase (rest : List Char) :
    findDrop attachmentsPat (cdnAttachmentsBase ++ rest) = some rest := rfl

theorem cleanURL_cdn {rest : List Char} (hq : ∀ x ∈ rest, x ≠ '?') :
    cleanURL (cdnAttachmentsBase ++ rest) = rest := by
  have h1 : stripQuery (cdnAttachmentsBase ++ rest) = cdnAttachmentsBase ++ rest := by
    refine stripQuery_eq_self ?_
    intro x hx
    rcases List.mem_append.mp hx with h | h
    · exact cdnBase_no_q x h
    · exact hq x h
  simp only [cleanURL, h1, findDrop_attach_cdnBase]

theorem cleanURL_cdn_query {rest : List Char} (q : List Char)
    (hq : ∀ x ∈ rest, x ≠ '?') :
    cleanURL ((cdnAttachmentsBase ++ rest) ++ '?' :: q) = rest := by
  have h1 : stripQuery ((cdnAttachmentsBase ++ rest) ++ '?' :: q) =
      cdnAttachmentsBase ++ rest := by
    refine stripQuery_append_query q ?_
    intro x hx
    rcases List.mem_append.mp hx with h | h
    · exact cdnBase_no_q x h
    · exact hq x h
  simp only [cleanURL, h1, findDrop_attach_cdnBase]

end DiscordCDN

namespace DiscordCDN

theorem pow_two_63 : (2 : Nat) ^ 63 = 9223372036854775808 := by norm_num

theorem pow_two_63_int : (2 : Int) ^ 63 = 9223372036854775808 := by norm_num

theorem allDigits_cons_head {c : Char} {rest : List Char}
    (h : allDigits (c :: rest) = true) : isDigitChar c = true := by
  simp [allDigits, List.all_cons] at h
  exact h.1

theorem goParseInt64_digits {s : List Char} (h : allDigits s = true)
    (hv : digitsVal s ≤ 2 ^ 63 - 1) : goParseInt64 s = some (digitsVal s) := by
  rcases s with _ | ⟨c, rest⟩
  · simp [allDigits] at h
  · obtain ⟨-, -, -, h4, h5⟩ := isDigitChar_ne (allDigits_cons_head h)
    have hv' : digitsVal (c :: rest) ≤ 9223372036854775807 := by
      rw [pow_two_63] at hv
      omega
    simp [goParseInt64, h4, h5, h, hv']

theorem goParseInt64_range {s : List Char} {v : Int} (h : goParseInt64 s = some v) :
    -(2 ^ 63) ≤ v ∧ v ≤ 2 ^ 63 - 1 := by
  rw [pow_two_63_int]
  rcases s with _ | ⟨c, rest⟩
  · simp [goParseInt64] at h
  · simp only [goParseInt64] at h
    by_cases h1 : c = '-'
    · rw [if_pos h1] at h
      split at h
      · rename_i hcond
        obtain ⟨-, hval⟩ := hcond
        rw [pow_two_63] at hval
        rw [Option.some_inj] at h
        omega
      · exact absurd h (by simp)
    · rw [if_neg h1] at h
      by_cases h2 : c = '+'
      · rw [if_pos h2] at h
        split at h
        · rename_i hcond
          obtain ⟨-, hval⟩ := hcond
          rw [pow_two_63] at hval
          rw [Option.some_inj] at h
          omega
        · exact absurd h (by simp)
      · rw [if_neg h2] at h
        split at h
        · rename_i hcond
          obtain ⟨-, hval⟩ := hcond
          rw [pow_two_63] at hval
          rw [Option.some_inj] at h
          omega
        · exact absurd h (by simp)

theorem digitsVal_append_digit (l : List Char) (c : Char) :
    digitsVal (l ++ [c]) = 10 * digitsVal l + (c.toNat - 48) := by
  simp [digitsVal, List.foldl_append]

theorem digitChar_toNat {d : Nat} (h : d < 10) : (Nat.digitChar d).toNat = 48 + d := by
  interval_cases d <;> rfl

theorem isDigitChar_digitChar {d : Nat} (h : d < 10) :
    isDigitChar (Nat.digitChar d) = true := by
  interval_cases d <;> rfl

theorem natDecimalAux_spec : ∀ fuel n, n ≤ fuel →
    digitsVal (natDecimalAux fuel n) = n ∧
    (∀ x ∈ natDecimalAux fuel n, isDigitChar x = true) ∧
    (n ≠ 0 → natDecimalAux fuel n ≠ []) := by
  intro fuel
  induction fuel with
  | zero =>
    intro n hn
    interval_cases n
    exact ⟨rfl, by simp [natDecimalAux], fun h => absurd rfl h⟩
  | succ fuel ih =>
    intro n hn
    by_cases h0 : n = 0
    · subst h0
      exact ⟨rfl, by simp [natDecimalAux], fun h => absurd rfl h⟩
    · have hrec : n / 10 ≤ fuel := by
        have : n / 10 < n := Nat.div_lt_self (Nat.pos_of_ne_zero h0) (by norm_num)
        omega
      obtain ⟨ih1, ih2, ih3⟩ := ih (n / 10) hrec
      have hlt : n % 10 < 10 := Nat.mod_lt n (by omega)
      refine ⟨?_, ?_, ?_⟩
      · simp only [natDecimalAux, if_neg h0]
        rw [digitsVal_append_digit, ih1, digitChar_toNat hlt]
        omega
      · intro x hx
        simp only [natDecimalAux, if_neg h0, List.mem_append, List.mem_singleton] at hx
        rcases hx with hx | rfl
        · exact ih2 x hx
        · exact isDigitChar_digitChar hlt
      · intro _
        simp [natDecimalAux, if_neg h0]

theorem natDecimal_spec (n : Nat) :
    digitsVal (natDecimal n) = n ∧ allDigits (natDecimal n) = true := by
  by_cases h0 : n = 0
  · subst h0
    exact ⟨rfl, rfl⟩
  · obtain ⟨h1, h2, h3⟩ := natDecimalAux_spec n n le_rfl
    have hne := h3 h0
    have heq : natDecimal n = natDecimalAux n n := by simp [natDecimal, h0]
    refine ⟨heq ▸ h1, ?_⟩
    rw [heq, allDigits, Bool.and_eq_true]
    constructor
    · simpa using hne
    · rw [List.all_eq_true]
      intro x hx
      exact h2 x hx

theorem goParseInt64_natDecimal {n : Nat} (h : n ≤ 2 ^ 63 - 1) :
    goParseInt64 (natDecimal n) = some (n : Int) := by
  obtain ⟨h1, h2⟩ := natDecimal_spec n
  rw [goParseInt64_digits h2 (by rw [h1]; exact h), h1]
  simp

theorem goParseInt64_intDecimal {v : Int} (hlow : -(2 ^ 63) ≤ v)
    (hhigh : v ≤ 2 ^ 63 - 1) : goParseInt64 (intDecimal v) = some v := by
  rw [pow_two_63_int] at hlow hhigh
  by_cases hv : v < 0
  · obtain ⟨hval, hall⟩ := natDecimal_spec v.natAbs
    have hbound : digitsVal (natDecimal v.natAbs) ≤ 2 ^ 63 := by
      rw [hval, pow_two_63]
      omega
    simp only [intDecimal, if_pos hv, goParseInt64]
    rw [if_pos trivial, if_pos ⟨hall, hbound⟩, Option.some_inj, hval]
    omega
  · simp only [intDecimal, if_neg hv]
    rw [goParseInt64_natDecimal (by rw [pow_two_63]; omega), Option.some_inj]
    omega

theorem intDecimal_chars {v : Int} {x : Char} (hx : x ∈ intDecimal v) :
    x = '-' ∨ isDigitChar x = true := by
  have hnat : ∀ n : Nat, ∀ y ∈ natDecimal n, isDigitChar y = true := by
    intro n y hy
    by_cases h0 : n = 0
    · subst h0
      have hy0 : y = '0' := by simpa [natDecimal] using hy
      subst hy0
      rfl
    · have heq : natDecimal n = natDecimalAux n n := by simp [natDecimal, h0]
      exact (natDecimalAux_spec n n le_rfl).2.1 y (heq ▸ hy)
  unfold intDecimal at hx
  split at hx
  · rcases List.mem_cons.mp hx with rfl | hx
    · exact Or.inl rfl
    · exact Or.inr (hnat _ x hx)
  · exact Or.inr (hnat _ x hx)

end DiscordCDN

namespace DiscordCDN

theorem parseSegments_success {a b c : List Char} {x y : Int}
    (ha : goParseInt64 a = some x) (hb : goParseInt64 b = some y)
    (hc : c.contains '.' = true) :
    parseSegments [a, b, c] =
      { Error := [], Data := some { ChannelID := x, FileID := y, FileName := c } } := by
  have hc' : '.' ∈ c := by simpa using hc
  simp [parseSegments, ha, hb, hc']

theorem parseLink_success_inv {i : List Char} {ld : LinkData}
    (h : parseLink i = { Error := [], Data := some ld }) :
    ∃ a b, splitOnSlash (cleanURL i) = [a, b, ld.FileName] ∧
      goParseInt64 a = some ld.ChannelID ∧ goParseInt64 b = some ld.FileID ∧
      ld.FileName.contains '.' = true := by
  unfold parseLink at h
  rcases hsp : splitOnSlash (cleanURL i) with _ | ⟨a, _ | ⟨b, _ | ⟨c, _ | ⟨d, t⟩⟩⟩⟩ <;>
    rw [hsp] at h
  · have hE : invalidFormatMsg = [] := congrArg ParsedLink.Error h
    exact absurd hE (by decide)
  · have hE : invalidFormatMsg = [] := congrArg ParsedLink.Error h
    exact absurd hE (by decide)
  · have hE : invalidFormatMsg = [] := congrArg ParsedLink.Error h
    exact absurd hE (by decide)
  · rcases ha : goParseInt64 a with _ | cid
    · have hps : parseSegments [a, b, c] = { Error := invalidChannelIDMsg, Data := none } := by
        simp [parseSegments, ha]
      rw [hps] at h
      have hE : invalidChannelIDMsg = [] := congrArg ParsedLink.Error h
      exact absurd hE (by decide)
    · rcases hb : goParseInt64 b with _ | fid
      · have hps : parseSegments [a, b, c] = { Error := invalidFileIDMsg, Data := none } := by
          simp [parseSegments, ha, hb]
        rw [hps] at h
        have hE : invalidFileIDMsg = [] := congrArg ParsedLink.Error h
        exact absurd hE (by decide)
      · by_cases hdot : c.contains '.' = true
        · rw [parseSegments_success ha hb hdot] at h
          rcases ld with ⟨cid2, fid2, name2⟩
          simp only [ParsedLink.mk.injEq, Option.some.injEq, LinkData.mk.injEq,
            true_and] at h
          obtain ⟨rfl, rfl, rfl⟩ := h
          exact ⟨a, b, rfl, ha, hb, hdot⟩
        · have hdot2 : '.' ∉ c := fun hm => hdot (by simpa using hm)
          have hps : parseSegments [a, b, c] = { Error := missingExtensionMsg, Data := none } := by
            simp [parseSegments, ha, hb, hdot2]
          rw [hps] at h
          have hE : missingExtensionMsg = [] := congrArg ParsedLink.Error h
          exact absurd hE (by decide)
  · have hE : invalidFormatMsg = [] := congrArg ParsedLink.Error h
    exact absurd hE (by decide)

theorem parseLink_success_fileName {i : List Char} {ld : LinkData}
    (h : parseLink i = { Error := [], Data := some ld }) :
    ld.FileName.contains '.' = true ∧ '/' ∉ ld.FileName ∧ '?' ∉ ld.FileName := by
  obtain ⟨a, b, hsp, -, -, hdot⟩ := parseLink_success_inv h
  have hin : ld.FileName ∈ splitOnSlash (cleanURL i) := by
    rw [hsp]
    simp
  refine ⟨hdot, ?_, ?_⟩
  · intro hmem
    exact (splitOnSlash_mem hin hmem).2 rfl
  · intro hmem
    exact cleanURL_no_q i (splitOnSlash_mem hin hmem).1 rfl

theorem intDecimal_no_slash {v : Int} : '/' ∉ intDecimal v := by
  intro hx
  rcases intDecimal_chars hx with h | h <;> exact absurd h (by decide)

theorem intDecimal_no_q {v : Int} : '?' ∉ intDecimal v := by
  intro hx
  rcases intDecimal_chars hx with h | h <;> exact absurd h (by decide)

theorem splitOnSlash_path {a b c : List Char} (ha : '/' ∉ a) (hb : '/' ∉ b)
    (hc : '/' ∉ c) :
    splitOnSlash (a ++ ('/' :: (b ++ ('/' :: c)))) = [a, b, c] := by
  rw [splitOnSlash_append_slash a _ ha, splitOnSlash_append_slash b _ hb,
    splitOnSlash_of_no_slash c hc]

theorem cleanURL_reconstruct {ld : LinkData} (hq : '?' ∉ ld.FileName) :
    cleanURL (reconstructURL ld) =
      intDecimal ld.ChannelID ++ ('/' :: (intDecimal ld.FileID ++ ('/' :: ld.FileName))) := by
  refine cleanURL_cdn ?_
  intro x hx
  rcases List.mem_append.mp hx with h | h
  · intro he
    exact intDecimal_no_q (he ▸ h)
  · rcases List.mem_cons.mp h with rfl | h
    · decide
    · rcases List.mem_append.mp h with h | h
      · intro he
        exact intDecimal_no_q (he ▸ h)
      · rcases List.mem_cons.mp h with rfl | h
        · decide
        · exact fun he => hq (he ▸ h)

theorem splitOnSlash_reconstruct {ld : LinkData} (hq : '?' ∉ ld.FileName)
    (hslash : '/' ∉ ld.FileName) :
    splitOnSlash (cleanURL (reconstructURL ld)) =
      [intDecimal ld.ChannelID, intDecimal ld.FileID, ld.FileName] := by
  rw [cleanURL_reconstruct hq]
  exact splitOnSlash_path intDecimal_no_slash intDecimal_no_slash hslash

theorem parseLink_reconstruct {ld : LinkData}
    (hlowC : -(2 ^ 63) ≤ ld.ChannelID) (hhighC : ld.ChannelID ≤ 2 ^ 63 - 1)
    (hlowF : -(2 ^ 63) ≤ ld.FileID) (hhighF : ld.FileID ≤ 2 ^ 63 - 1)
    (hdot : ld.FileName.contains '.' = true)
    (hslash : '/' ∉ ld.FileName) (hq : '?' ∉ ld.FileName) :
    parseLink (reconstructURL ld) = { Error := [], Data := some ld } := by
  unfold parseLink
  rw [splitOnSlash_reconstruct hq hslash]
  have h := parseSegments_success (goParseInt64_intDecimal hlowC hhighC)
    (goParseInt64_intDecimal hlowF hhighF) hdot
  rw [h]

end DiscordCDN

namespace DiscordCDN

theorem parseSegments_not_three {parts : List (List Char)} (h : parts.length ≠ 3) :
    parseSegments parts = { Error := invalidFormatMsg, Data := none } := by
  rcases parts with _ | ⟨a, _ | ⟨b, _ | ⟨c, _ | ⟨d, t⟩⟩⟩⟩
  · rfl
  · rfl
  · rfl
  · simp at h
  · rfl

theorem parseSegments_invariant (parts : List (List Char)) :
    ((parseSegments parts).Error = [] ∧ (parseSegments parts).Data ≠ none ∨
      (parseSegments parts).Error ≠ [] ∧ (parseSegments parts).Data = none) ∧
    ((parseSegments parts).Error ≠ [] →
      (parseSegments parts).Error = invalidFormatMsg ∨
      (parseSegments parts).Error = invalidChannelIDMsg ∨
      (parseSegments parts).Error = invalidFileIDMsg ∨
      (parseSegments parts).Error = missingExtensionMsg) := by
  rcases parts with _ | ⟨a, _ | ⟨b, _ | ⟨c, _ | ⟨d, t⟩⟩⟩⟩
  · exact ⟨Or.inr ⟨by decide, rfl⟩, fun _ => Or.inl rfl⟩
  · rw [parseSegments_not_three (by simp)]
    exact ⟨Or.inr ⟨by decide, rfl⟩, fun _ => Or.inl rfl⟩
  · rw [parseSegments_not_three (by simp)]
    exact ⟨Or.inr ⟨by decide, rfl⟩, fun _ => Or.inl rfl⟩
  · rcases ha : goParseInt64 a with _ | cid
    · have hps : parseSegments [a, b, c] = { Error := invalidChannelIDMsg, Data := none } := by
        simp [parseSegments, ha]
      rw [hps]
      exact ⟨Or.inr ⟨by decide, rfl⟩, fun _ => Or.inr (Or.inl rfl)⟩
    · rcases hb : goParseInt64 b with _ | fid
      · have hps : parseSegments [a, b, c] = { Error := invalidFileIDMsg, Data := none } := by
          simp [parseSegments, ha, hb]
        rw [hps]
        exact ⟨Or.inr ⟨by decide, rfl⟩, fun _ => Or.inr (Or.inr (Or.inl rfl))⟩
      · by_cases hdot : c.contains '.' = true
        · rw [parseSegments_success ha hb hdot]
          exact ⟨Or.inl ⟨rfl, by simp⟩, fun hne => absurd rfl hne⟩
        · have hdot2 : '.' ∉ c := fun hm => hdot (by simpa using hm)
          have hps : parseSegments [a, b, c] = { Error := missingExtensionMsg, Data := none } := by
            simp [parseSegments, ha, hb, hdot2]
          rw [hps]
          exact ⟨Or.inr ⟨by decide, rfl⟩, fun _ => Or.inr (Or.inr (Or.inr rfl))⟩
  · rw [parseSegments_not_three (by simp +arith)]
    exact ⟨Or.inr ⟨by decide, rfl⟩, fun _ => Or.inl rfl⟩

theorem parseSegments_error_cases (a b c : List Char) :
    goParseInt64 a = none ∧
      parseSegments [a, b, c] = { Error := invalidChannelIDMsg, Data := none } ∨
    (∃ x, goParseInt64 a = some x) ∧ goParseInt64 b = none ∧
      parseSegments [a, b, c] = { Error := invalidFileIDMsg, Data := none } ∨
    (∃ x, goParseInt64 a = some x) ∧ (∃ y, goParseInt64 b = some y) ∧
      c.contains '.' = false ∧
      parseSegments [a, b, c] = { Error := missingExtensionMsg, Data := none } ∨
    (∃ x, goParseInt64 a = some x) ∧ (∃ y, goParseInt64 b = some y) ∧
      c.contains '.' = true ∧ (parseSegments [a, b, c]).Error = [] := by
  rcases ha : goParseInt64 a with _ | x
  · exact Or.inl ⟨rfl, by simp [parseSegments, ha]⟩
  · rcases hb : goParseInt64 b with _ | y
    · exact Or.inr (Or.inl ⟨⟨x, rfl⟩, rfl, by simp [parseSegments, ha, hb]⟩)
    · by_cases hdot : c.contains '.' = true
      · refine Or.inr (Or.inr (Or.inr ⟨⟨x, rfl⟩, ⟨y, rfl⟩, hdot, ?_⟩))
        rw [parseSegments_success ha hb hdot]
      · refine Or.inr (Or.inr (Or.inl ⟨⟨x, rfl⟩, ⟨y, rfl⟩, by simpa using hdot, ?_⟩))
        have hdot2 : '.' ∉ c := fun hm => hdot (by simpa using hm)
        simp [parseSegments, ha, hb, hdot2]

theorem isSome_ite {α : Type} {p : Prop} [Decidable p] (v : α) :
    (if p then some v else (none : Option α)).isSome = decide p := by
  split <;> rename_i h <;> simp [h]

theorem goParseInt64_isSome (s : List Char) :
    (goParseInt64 s).isSome = acceptInt64 s := by
  rcases s with _ | ⟨c, rest⟩
  · rfl
  · simp only [goParseInt64, acceptInt64]
    by_cases h1 : c = '-'
    · rw [if_pos h1, if_pos h1, isSome_ite]
      by_cases hd : allDigits rest = true <;> simp [hd]
    · rw [if_neg h1, if_neg h1]
      by_cases h2 : c = '+'
      · rw [if_pos h2, if_pos h2, isSome_ite]
        by_cases hd : allDigits rest = true <;> simp [hd]
      · rw [if_neg h2, if_neg h2, isSome_ite]
        by_cases hd : allDigits (c :: rest) = true <;> simp [hd]

theorem allDigits_mem {l : List Char} (h : allDigits l = true) :
    ∀ x ∈ l, isDigitChar x = true := by
  rw [allDigits, Bool.and_eq_true, List.all_eq_true] at h
  exact fun x hx => h.2 x hx

theorem allDigits_no_slash {l : List Char} (h : allDigits l = true) : '/' ∉ l :=
  fun hm => absurd rfl (isDigitChar_ne (allDigits_mem h '/' hm)).2.1

end DiscordCDN

namespace DiscordCDN

/-- C3: `parseLink` strips from the first `'?'`, then past the first
`"attachments/"`, then splits on `'/'`; whenever the split does not have
exactly 3 segments the result is the `"Invalid link format"` error with
no data, so no ID or extension check is reported. -/
theorem parseLink_format_error (i : List Char)
    (h : (splitOnSlash (cleanURL i)).length ≠ 3) :
    parseLink i = { Error := invalidFormatMsg, Data := none } ∧
    cleanURL i = (match findDrop attachmentsPat (stripQuery i) with
      | some r => r
      | none => stripQuery i) :=
  ⟨parseSegments_not_three h, rfl⟩

/-- Witness for C3 at the empty input: the split has one segment, and the
parser reports the format error. -/
theorem parseLink_format_error_witness :
    parseLink [] = { Error := invalidFormatMsg, Data := none } :=
  (parseLink_format_error [] (by decide)).1

/-- C8: every `parseLink` result has either a non-empty error and no
data or an empty error and data, and every non-empty error is one of
the four fixed messages. -/
theorem parseLink_outcome_invariant (i : List Char) :
    ((parseLink i).Error = [] ∧ (parseLink i).Data ≠ none ∨
      (parseLink i).Error ≠ [] ∧ (parseLink i).Data = none) ∧
    ((parseLink i).Error ≠ [] →
      (parseLink i).Error = invalidFormatMsg ∨
      (parseLink i).Error = invalidChannelIDMsg ∨
      (parseLink i).Error = invalidFileIDMsg ∨
      (parseLink i).Error = missingExtensionMsg) :=
  parseSegments_invariant (splitOnSlash (cleanURL i))

/-- Witness for C8: a two-segment input has a non-empty error, which is
one of the four fixed messages. -/
theorem parseLink_outcome_invariant_witness :
    (parseLink "x/y".toList).Error = invalidFormatMsg ∨
    (parseLink "x/y".toList).Error = invalidChannelIDMsg ∨
    (parseLink "x/y".toList).Error = invalidFileIDMsg ∨
    (parseLink "x/y".toList).Error = missingExtensionMsg :=
  (parseLink_outcome_invariant "x/y".toList).2 (by decide)

/-- C2 (amended): when the cleaned input splits into exactly three
segments, segment 1 is rejected with `"Invalid Channel ID"` exactly when
it is not a base-10 signed 64-bit numeral (optional single sign, value
within the `int64` range), and, when segment 1 is accepted, segment 2 is
rejected with `"Invalid File ID"` under the same criterion. -/
theorem parseLink_id_segments (i a b c : List Char)
    (h : splitOnSlash (cleanURL i) = [a, b, c]) :
    ((parseLink i).Error = invalidChannelIDMsg ↔ acceptInt64 a = false) ∧
    (acceptInt64 a = true →
      ((parseLink i).Error = invalidFileIDMsg ↔ acceptInt64 b = false)) := by
  have hpl : parseLink i = parseSegments [a, b, c] := by rw [parseLink, h]
  rw [hpl]
  rcases parseSegments_error_cases a b c with
    ⟨ha, hps⟩ | ⟨⟨x, ha⟩, hb, hps⟩ | ⟨⟨x, ha⟩, ⟨y, hb⟩, hdot, hps⟩ | ⟨⟨x, ha⟩, ⟨y, hb⟩, hdot, hE⟩
  · have hacc : acceptInt64 a = false := by
      rw [← goParseInt64_isSome, ha]
      rfl
    rw [hps, hacc]
    constructor
    · exact ⟨fun _ => rfl, fun _ => rfl⟩
    · intro htrue
      exact absurd htrue (by simp)
  · have hacc : acceptInt64 a = true := by
      rw [← goParseInt64_isSome, ha]
      rfl
    have haccb : acceptInt64 b = false := by
      rw [← goParseInt64_isSome, hb]
      rfl
    rw [hps, hacc, haccb]
    constructor
    · constructor
      · intro hE
        exact absurd hE (by decide)
      · intro hf
        exact absurd hf (by decide)
    · exact fun _ => ⟨fun _ => rfl, fun _ => rfl⟩
  · have hacc : acceptInt64 a = true := by
      rw [← goParseInt64_isSome, ha]
      rfl
    have haccb : acceptInt64 b = true := by
      rw [← goParseInt64_isSome, hb]
      rfl
    rw [hps, hacc, haccb]
    constructor
    · constructor
      · intro hE
        exact absurd hE (by decide)
      · intro hf
        exact absurd hf (by decide)
    · intro _
      constructor
      · intro hE
        exact absurd hE (by decide)
      · intro hf
        exact absurd hf (by decide)
  · have hacc : acceptInt64 a = true := by
      rw [← goParseInt64_isSome, ha]
      rfl
    have haccb : acceptInt64 b = true := by
      rw [← goParseInt64_isSome, hb]
      rfl
    rw [hacc, haccb]
    constructor
    · constructor
      · intro hEc
        rw [hE] at hEc
        exact absurd hEc.symm (by decide)
      · intro hf
        exact absurd hf (by decide)
    · intro _
      constructor
      · intro hEc
        rw [hE] at hEc
        exact absurd hEc.symm (by decide)
      · intro hf
        exact absurd hf (by decide)

/-- Counterexample to C2 as stated: the code parses signed `int64`
values, not unsigned 64-bit ones.  `"-1"` (which carries a leading `'-'`
and should be rejected per the claim) is accepted, and the digits-only
numeral `2^63` (inside `[0, 2^64-1]`, so acceptable per the claim) is
rejected with the channel-ID error. -/
theorem parseLink_id_segments_cex :
    parseLink "-1/2/a.b".toList =
      { Error := [],
        Data := some { ChannelID := -1, FileID := 2, FileName := "a.b".toList } } ∧
    parseLink "9223372036854775808/2/a.b".toList =
      { Error := invalidChannelIDMsg, Data := none } := by
  exact ⟨by decide, by decide⟩

/-- Witness for C2 applying the theorem at a non-numeric first segment. -/
theorem parseLink_id_segments_witness :
    (parseLink "abc/456/x.png".toList).Error = invalidChannelIDMsg ↔
      acceptInt64 "abc".toList = false :=
  (parseLink_id_segments "abc/456/x.png".toList "abc".toList "456".toList
    "x.png".toList (by decide)).1

/-- C4 (amended): a non-200 status is an error carrying the status code;
a 200 response with an empty list is the error `"no refreshed URLs
returned"`; a 200 response with a non-empty list returns the `refreshed`
field of the first entry. -/
theorem refresh_response_contract (status : Nat)
    (decoded : Except (List Char) (List RefreshedEntry)) :
    (status ≠ 200 → refreshHandleResponse status decoded = .error (apiErrorMsg status)) ∧
    refreshHandleResponse 200 (.ok []) = .error noRefreshedMsg ∧
    (∀ entry rest, refreshHandleResponse 200 (.ok (entry :: rest)) = .ok entry.Refreshed) := by
  refine ⟨fun h => ?_, rfl, fun entry rest => rfl⟩
  simp [refreshHandleResponse, h]

/-- Counterexample to C4 as stated: the empty-list message in the code is
`"no refreshed URLs returned"`, not `"no refreshed URL returned"`. -/
theorem refresh_response_contract_cex :
    refreshHandleResponse 200 (.ok []) = .error noRefreshedMsg ∧
    noRefreshedMsg ≠ "no refreshed URL returned".toList :=
  ⟨rfl, by decide⟩

/-- Witness for C4 at status 500. -/
theorem refresh_response_contract_witness :
    refreshHandleResponse 500 (.ok []) = .error (apiErrorMsg 500) :=
  (refresh_response_contract 500 (.ok [])).1 (by decide)

/-- C5: `RefreshAttachmentURL` issues exactly one request, a POST to the
refresh endpoint whose JSON body is an object with the single key
`attachment_urls` holding the one submitted URL, with content type
`application/json` and the credential placed verbatim (no `"Bearer "`
prefixing) in the authorization header. -/
theorem refresh_request_shape (token attachmentURL : List Char)
    (transport : HTTPRequest →
      Except (List Char) (Nat × Except (List Char) (List RefreshedEntry))) :
    (RefreshAttachmentURL token attachmentURL transport).1 =
      [buildRefreshRequest token attachmentURL] ∧
    (buildRefreshRequest token attachmentURL).method = "POST".toList ∧
    (buildRefreshRequest token attachmentURL).url = refreshEndpoint ∧
    (buildRefreshRequest token attachmentURL).contentType = "application/json".toList ∧
    (buildRefreshRequest token attachmentURL).body =
      Json.obj [("attachment_urls".toList, Json.arr [Json.str attachmentURL])] ∧
    (buildRefreshRequest token attachmentURL).authorization = token := by
  refine ⟨?_, rfl, rfl, rfl, rfl, rfl⟩
  rcases h : transport (buildRefreshRequest token attachmentURL) with e | p
  · simp [RefreshAttachmentURL, h]
  · rcases p with ⟨st, dec⟩
    simp [RefreshAttachmentURL, h]

end DiscordCDN

namespace DiscordCDN

/-- C6: the handler answers 400 with a JSON error body when the path
parameter is empty, when percent-decoding fails (and then regardless of
the parser, which is never invoked), and when the parser reports any
error (carrying the parser's message). -/
theorem handler_bad_request (param : List Char)
    (decode refresh : List Char → Except (List Char) (List Char)) :
    (param = [] → handleURL param decode refresh = .badRequest "URL is required".toList) ∧
    (trimPrefixSlash param = [] →
      handleURL param decode refresh = .badRequest "URL is required".toList) ∧
    (∀ e, trimPrefixSlash param ≠ [] → decode (trimPrefixSlash param) = .error e →
      ∀ parser, handleURLGen parser param decode refresh =
        .badRequest "Invalid URL format".toList) ∧
    (∀ d, trimPrefixSlash param ≠ [] → decode (trimPrefixSlash param) = .ok d →
      (parseLink d).Error ≠ [] →
      handleURL param decode refresh = .badRequest (parseLink d).Error) := by
  refine ⟨?_, ?_, ?_, ?_⟩
  · rintro rfl
    rfl
  · intro h
    simp [handleURL, handleURLGen, h]
  · intro e hne hdec parser
    simp [handleURLGen, hne, hdec]
  · intro d hne hdec hperr
    simp [handleURL, handleURLGen, hne, hdec, hperr]

/-- Witness for C6: a failing decoder forces the 400 response for every
parser, here applied with the real one. -/
theorem handler_bad_request_witness :
    handleURLGen parseLink "/%zz".toList (fun _ => .error "bad escape".toList)
      (fun _ => .ok "y".toList) = .badRequest "Invalid URL format".toList :=
  (handler_bad_request "/%zz".toList (fun _ => .error "bad escape".toList)
    (fun _ => .ok "y".toList)).2.2.1 "bad escape".toList (by decide) rfl parseLink

/-- C7: once the parser has succeeded, a Refresh Client error of any
kind yields 502 with the fixed body `"Failed to refresh URL"`, and a
returned URL yields a 301 redirect to exactly that URL. -/
theorem handler_refresh_outcomes (param d : List Char) (ld : LinkData)
    (decode refresh : List Char → Except (List Char) (List Char))
    (h1 : trimPrefixSlash param ≠ [])
    (h2 : decode (trimPrefixSlash param) = .ok d)
    (h3 : parseLink d = { Error := [], Data := some ld }) :
    (∀ e, refresh (reconstructURL ld) = .error e →
      handleURL param decode refresh = .badGateway "Failed to refresh URL".toList) ∧
    (∀ u, refresh (reconstructURL ld) = .ok u →
      handleURL param decode refresh = .redirect 301 u) := by
  constructor
  · intro e he
    simp [handleURL, handleURLGen, h1, h2, h3, he]
  · intro u hu
    simp [handleURL, handleURLGen, h1, h2, h3, hu]

/-- Witness for C7: with an identity decoder and a refresher returning a
fixed URL, the handler issues the 301 redirect to it. -/
theorem handler_refresh_outcomes_witness :
    handleURL "/123/456/a.png".toList (fun s => .ok s)
      (fun _ => .ok "refreshed".toList) = .redirect 301 "refreshed".toList :=
  (handler_refresh_outcomes "/123/456/a.png".toList "123/456/a.png".toList
    { ChannelID := 123, FileID := 456, FileName := "a.png".toList }
    (fun s => .ok s) (fun _ => .ok "refreshed".toList)
    (by decide) rfl (by decide)).2 "refreshed".toList rfl

end DiscordCDN

namespace DiscordCDN

/-- C1 (amended): for a path `a/b/c` whose ID segments are non-empty
digit strings with values at most `2^63 - 1` and whose name contains a
`'.'` and neither `'/'` nor `'?'`, `parseLink` succeeds with exactly
those components, and identically with the CDN prefix
`https://cdn.discordapp.com/attachments/` prepended and/or a query
string appended. -/
theorem parseLink_canonical (a b c q : List Char)
    (ha : allDigits a = true) (hva : digitsVal a ≤ 2 ^ 63 - 1)
    (hb : allDigits b = true) (hvb : digitsVal b ≤ 2 ^ 63 - 1)
    (hdot : c.contains '.' = true) (hslash : '/' ∉ c) (hq : '?' ∉ c) :
    parseLink (a ++ ('/' :: (b ++ ('/' :: c)))) =
      { Error := [],
        Data := some { ChannelID := digitsVal a, FileID := digitsVal b, FileName := c } } ∧
    parseLink (cdnAttachmentsBase ++ (a ++ ('/' :: (b ++ ('/' :: c))))) =
      { Error := [],
        Data := some { ChannelID := digitsVal a, FileID := digitsVal b, FileName := c } } ∧
    parseLink ((a ++ ('/' :: (b ++ ('/' :: c)))) ++ '?' :: q) =
      { Error := [],
        Data := some { ChannelID := digitsVal a, FileID := digitsVal b, FileName := c } } ∧
    parseLink ((cdnAttachmentsBase ++ (a ++ ('/' :: (b ++ ('/' :: c))))) ++ '?' :: q) =
      { Error := [],
        Data := some { ChannelID := digitsVal a, FileID := digitsVal b, FileName := c } } := by
  have hma := allDigits_mem ha
  have hmb := allDigits_mem hb
  have hsa := allDigits_no_slash ha
  have hsb := allDigits_no_slash hb
  have hga : goParseInt64 a = some (digitsVal a) := goParseInt64_digits ha hva
  have hgb : goParseInt64 b = some (digitsVal b) := goParseInt64_digits hb hvb
  have hsplit : splitOnSlash (a ++ ('/' :: (b ++ ('/' :: c)))) = [a, b, c] :=
    splitOnSlash_path hsa hsb hslash
  have hpq : ∀ x ∈ a ++ ('/' :: (b ++ ('/' :: c))), x ≠ '?' := path_no_q hma hmb hq
  have hps := parseSegments_success hga hgb hdot
  refine ⟨?_, ?_, ?_, ?_⟩
  · unfold parseLink
    rw [cleanURL_path hma hmb hslash hq, hsplit, hps]
  · unfold parseLink
    rw [cleanURL_cdn hpq, hsplit, hps]
  · unfold parseLink
    rw [cleanURL_path_query q hma hmb hslash hq, hsplit, hps]
  · unfold parseLink
    rw [cleanURL_cdn_query q hpq, hsplit, hps]

/-- Counterexample to C1 as stated: the digits-only channel segment
`2^63` overflows the signed 64-bit parse and is rejected instead of
succeeding, and a dotted name containing `'?'` is truncated at the
`'?'`, so the returned file name does not equal the path component. -/
theorem parseLink_canonical_cex :
    parseLink "9223372036854775808/1/a.b".toList =
      { Error := invalidChannelIDMsg, Data := none } ∧
    (parseLink "1/2/a.b?x".toList).Data =
      some { ChannelID := 1, FileID := 2, FileName := "a.b".toList } ∧
    "a.b".toList ≠ "a.b?x".toList := by
  exact ⟨by decide, by decide, by decide⟩

/-- Witness for C1 on the spec's own example, full CDN URL with query. -/
theorem parseLink_canonical_witness :
    parseLink ((cdnAttachmentsBase ++
        ("123".toList ++ ('/' :: ("456".toList ++ ('/' :: "image.png".toList))))) ++
        '?' :: "ex=abc".toList) =
      { Error := [],
        Data := some { ChannelID := digitsVal "123".toList,
                       FileID := digitsVal "456".toList,
                       FileName := "image.png".toList } } :=
  (parseLink_canonical "123".toList "456".toList "image.png".toList "ex=abc".toList
    (by decide) (by decide) (by decide) (by decide) (by decide) (by decide)
    (by decide)).2.2.2

/-- C9: on every parser success the file name contains a `'.'` and
neither `'/'` nor `'?'`, so the reconstructed canonical URL splits into
exactly three segments after `"attachments/"` and carries no query
string. -/
theorem parseLink_fileName_invariant (i : List Char) (ld : LinkData)
    (h : parseLink i = { Error := [], Data := some ld }) :
    ld.FileName.contains '.' = true ∧ '/' ∉ ld.FileName ∧ '?' ∉ ld.FileName ∧
    (splitOnSlash (cleanURL (reconstructURL ld))).length = 3 ∧
    '?' ∉ reconstructURL ld := by
  obtain ⟨hdot, hslash, hq⟩ := parseLink_success_fileName h
  refine ⟨hdot, hslash, hq, ?_, ?_⟩
  · rw [splitOnSlash_reconstruct hq hslash]
    rfl
  · intro hmem
    rcases List.mem_append.mp hmem with hm | hm
    · exact cdnBase_no_q '?' hm rfl
    · rcases List.mem_append.mp hm with hm | hm
      · exact intDecimal_no_q hm
      · rcases List.mem_cons.mp hm with he | hm
        · exact absurd he (by decide)
        · rcases List.mem_append.mp hm with hm | hm
          · exact intDecimal_no_q hm
          · rcases List.mem_cons.mp hm with he | hm
            · exact absurd he (by decide)
            · exact hq hm

/-- Witness for C9 at a concrete success. -/
theorem parseLink_fileName_invariant_witness :
    '/' ∉ ({ ChannelID := 7, FileID := 8, FileName := "p.q".toList } : LinkData).FileName ∧
    (splitOnSlash (cleanURL (reconstructURL
      { ChannelID := 7, FileID := 8, FileName := "p.q".toList }))).length = 3 :=
  ⟨(parseLink_fileName_invariant "7/8/p.q".toList
      { ChannelID := 7, FileID := 8, FileName := "p.q".toList } (by decide)).2.1,
   (parseLink_fileName_invariant "7/8/p.q".toList
      { ChannelID := 7, FileID := 8, FileName := "p.q".toList } (by decide)).2.2.2.1⟩

/-- C10: reconstructing the canonical URL from any parser success and
parsing it again reproduces exactly the same link data. -/
theorem parseLink_roundtrip (i : List Char) (ld : LinkData)
    (h : parseLink i = { Error := [], Data := some ld }) :
    parseLink (reconstructURL ld) = { Error := [], Data := some ld } := by
  obtain ⟨a, b, hsp, ha, hb, hdot⟩ := parseLink_success_inv h
  obtain ⟨-, hslash, hq⟩ := parseLink_success_fileName h
  obtain ⟨hlowC, hhighC⟩ := goParseInt64_range ha
  obtain ⟨hlowF, hhighF⟩ := goParseInt64_range hb
  exact parseLink_reconstruct hlowC hhighC hlowF hhighF hdot hslash hq

/-- Witness for C10 at a concrete success. -/
theorem parseLink_roundtrip_witness :
    parseLink (reconstructURL { ChannelID := 11, FileID := 22, FileName := "f.txt".toList }) =
      { Error := [],
        Data := some { ChannelID := 11, FileID := 22, FileName := "f.txt".toList } } :=
  parseLink_roundtrip "11/22/f.txt".toList
    { ChannelID := 11, FileID := 22, FileName := "f.txt".toList } (by decide)

end DiscordCDN
